import Mathlib

/-!
Verification of the ATFExtension step-generation pipeline (src/extension.ts).

Strings are modelled as `List Char`.  The JavaScript regular expressions used
by the source are compiled into explicit recursive scanners; JS semantics that
matter here:
  * `String.prototype.trim` removes the JS whitespace set (WhiteSpace plus
    LineTerminator) from both ends;
  * `\s` in a regex is that same whitespace set;
  * `.` matches any character except the line terminators;
  * `\b` after a letter requires the next character to be a non-word character
    (word characters are ASCII letters, digits and underscore) or end of input;
  * `/i` on ASCII letters folds only A-Z onto a-z;
  * `$` (without the `m` flag) matches only at the very end of the input.
-/

namespace ATFExtension

/-- JS whitespace set (the `\\s` class and the set removed by `trim`):
space, tab, LF, VT, FF, CR, NBSP, U+1680, U+2000-U+200A, U+2028, U+2029,
U+202F, U+205F, U+3000 and U+FEFF. -/
def isWSB (c : Char) : Bool :=
  c == ' ' || c == '\t' || c == '\n' || c == '\r' || c == '\x0b' || c == '\x0c' ||
  c.toNat == 160 || c.toNat == 5760 ||
  (decide (8192 ≤ c.toNat) && decide (c.toNat ≤ 8202)) ||
  c.toNat == 8232 || c.toNat == 8233 || c.toNat == 8239 || c.toNat == 8287 ||
  c.toNat == 12288 || c.toNat == 65279

/-- JS regex line terminators (the characters `.` does not match):
LF, CR, U+2028 and U+2029. -/
def isLineTermB (c : Char) : Bool :=
  c == '\n' || c == '\r' || c.toNat == 8232 || c.toNat == 8233

/-- JS regex word characters (the `\w` class), used by the `\b` assertion. -/
def isWordCharB (c : Char) : Bool :=
  (decide ('a' ≤ c) && decide (c ≤ 'z')) ||
  (decide ('A' ≤ c) && decide (c ≤ 'Z')) ||
  (decide ('0' ≤ c) && decide (c ≤ '9')) ||
  c == '_'

/-- ASCII letters and digits, the `[a-zA-Z0-9]` class. -/
def isAlnumB (c : Char) : Bool :=
  (decide ('a' ≤ c) && decide (c ≤ 'z')) ||
  (decide ('A' ≤ c) && decide (c ≤ 'Z')) ||
  (decide ('0' ≤ c) && decide (c ≤ '9'))

/-- ASCII-only case folding, the effect of the `/i` flag on the keywords. -/
def toLowerAscii (c : Char) : Char :=
  if decide ('A' ≤ c) && decide (c ≤ 'Z') then Char.ofNat (c.toNat + 32) else c

/-- Model of `String.prototype.trim`: drop JS whitespace from both ends. -/
def trimJS (l : List Char) : List Char :=
  ((l.dropWhile isWSB).reverse.dropWhile isWSB).reverse

/-- Test whether `t` starts with the word `w` (given in lowercase) followed by
a `\b` word boundary, case-insensitively: the compiled form of a leading
`^(w)\b` with the `/i` flag. -/
def matchesKw (w t : List Char) : Bool :=
  decide ((t.take w.length).map toLowerAscii = w) &&
    (match t.drop w.length with
     | [] => true
     | c :: _ => !isWordCharB c)

/-- The test `/^(and|or)\b/i.test(line)` from `validateStepLine`. -/
def startsWithConjunctionWord (t : List Char) : Bool :=
  matchesKw (("and").toList) t || matchesKw (("or").toList) t

/-- The test `/^(given|when|then)\b/i.test(line)` from `validateStepLine`. -/
def startsWithStepKeyword (t : List Char) : Bool :=
  matchesKw (("given").toList) t || matchesKw (("when").toList) t ||
  matchesKw (("then").toList) t

def emptyLineMsg : List Char := ("Line is empty/whitespace.").toList

def wrongConjunctionMsg : List Char := ("Please use Given, When or Then").toList

def missingKeywordMsg : List Char :=
  ("Line must start with the word \"Given\", \"When\" or \"Then\".").toList

/-- Model of `validateStepLine` from src/extension.ts. -/
def validateStepLine (rawLine : List Char) : Except (List Char) (List Char) :=
  let line := trimJS rawLine
  if line = [] then .error emptyLineMsg
  else if startsWithConjunctionWord line then .error wrongConjunctionMsg
  else if !startsWithStepKeyword line then .error missingKeywordMsg
  else .ok line

/-- Leading-keyword match of `/^(given|when|then)\b/i` on an already-trimmed
line, returning the title-cased keyword and the text after it. -/
def keywordSplit (t : List Char) : Option (List Char × List Char) :=
  if matchesKw (("given").toList) t then some ((("Given").toList), t.drop 5)
  else if matchesKw (("when").toList) t then some ((("When").toList), t.drop 4)
  else if matchesKw (("then").toList) t then some ((("Then").toList), t.drop 4)
  else none

/-- Model of `parseStepKeyword` from src/extension.ts: the regex
`/^(given|when|then)\b\s*(.*)$/i` applied to the trimmed line.  `(.*)$`
cannot cross a line terminator, so the match fails whenever a line terminator
survives after the whitespace run that follows the keyword. -/
def parseStepKeyword (stepLine : List Char) :
    Except (List Char) (List Char × List Char) :=
  let t := trimJS stepLine
  match keywordSplit t with
  | none => .error missingKeywordMsg
  | some (kw, rest) =>
      let rest2 := rest.dropWhile isWSB
      if rest2.any isLineTermB then .error missingKeywordMsg
      else .ok (kw, trimJS rest2)

/-- Scan for the first double quote; on success return the characters before
it and the characters after it. -/
def findQuote : List Char → Option (List Char × List Char)
  | [] => none
  | c :: rest =>
      if c = '"' then some ([], rest)
      else (findQuote rest).map (fun p => (c :: p.1, p.2))

/-- One step of the global scan of the regex `/"([^"]*)"/g` (equivalently of
`/"[^"]*"/g`): the leftmost match is the first quote paired with the quote
that follows it.  Returns (text before the match, quoted content, text after
the match), or `none` when no complete pair remains. -/
def splitFirstQuoted : List Char → Option (List Char × List Char × List Char)
  | [] => none
  | c :: rest =>
      if c = '"' then (findQuote rest).map (fun p => ([], p.1, p.2))
      else (splitFirstQuoted rest).map (fun p => (c :: p.1, p.2.1, p.2.2))

def findQuote_some : ∀ {l a b : List Char}, findQuote l = some (a, b) →
    l = a ++ '"' :: b ∧ '"' ∉ a := by
  intro l
  induction l with
  | nil => intro a b h; simp [findQuote] at h
  | cons c rest ih =>
      intro a b h
      by_cases hc : c = '"'
      · subst hc
        simp [findQuote] at h
        obtain ⟨ha, hb⟩ := h
        subst ha; subst hb; simp
      · rw [findQuote, if_neg hc] at h
        cases hfq : findQuote rest with
        | none => rw [hfq] at h; simp at h
        | some p =>
            obtain ⟨p1, p2⟩ := p
            rw [hfq] at h
            simp only [Option.map_some'] at h
            cases h
            obtain ⟨he, hn⟩ := ih hfq
            constructor
            · rw [he]; simp
            · simp [hn]
              intro hq; exact hc hq.symm

def splitFirstQuoted_some : ∀ {l b q a : List Char},
    splitFirstQuoted l = some (b, q, a) →
    l = b ++ '"' :: q ++ '"' :: a ∧ '"' ∉ b ∧ '"' ∉ q := by
  intro l
  induction l with
  | nil => intro b q a h; simp [splitFirstQuoted] at h
  | cons c rest ih =>
      intro b q a h
      by_cases hc : c = '"'
      · subst hc
        rw [splitFirstQuoted, if_pos rfl] at h
        cases hfq : findQuote rest with
        | none => rw [hfq] at h; simp at h
        | some p =>
            obtain ⟨p1, p2⟩ := p
            rw [hfq] at h
            simp only [Option.map_some'] at h
            cases h
            obtain ⟨he, hn⟩ := findQuote_some hfq
            simp [he, hn]
      · rw [splitFirstQuoted, if_neg hc] at h
        cases hsp : splitFirstQuoted rest with
        | none => rw [hsp] at h; simp at h
        | some p =>
            obtain ⟨p1, p2, p3⟩ := p
            rw [hsp] at h
            simp only [Option.map_some'] at h
            cases h
            obtain ⟨he, hnb, hnq⟩ := ih hsp
            refine ⟨?_, ?_, hnq⟩
            · rw [he]; simp
            · simp [hnb]
              intro hx; exact hc hx.symm

def splitFirstQuoted_length {l b q a : List Char}
    (h : splitFirstQuoted l = some (b, q, a)) : a.length < l.length := by
  have he := (splitFirstQuoted_some h).1
  subst he; simp; omega

/-- Model of `getQuotedStringLiterals` from src/extension.ts: the contents of all
complete quote pairs, left to right. -/
def getQuotedStringLiterals (stepLine : List Char) : List (List Char) :=
  match h : splitFirstQuoted stepLine with
  | none => []
  | some (_, q, a) => q :: getQuotedStringLiterals a
termination_by stepLine.length
decreasing_by exact splitFirstQuoted_length h

/-- Model of `str.replace(/"[^"]*"/g, tok)`: every complete quote pair (with its
content) is replaced by `tok`; text without a remaining pair is unchanged. -/
def replaceQuotedWith (tok : List Char) (l : List Char) : List Char :=
  match h : splitFirstQuoted l with
  | none => l
  | some (b, _, a) => b ++ tok ++ replaceQuotedWith tok a
termination_by l.length
decreasing_by exact splitFirstQuoted_length h

/-- Model of `value.replace(/c/g, rep)` for a single-character pattern `c`. -/
def replaceAllChar (c : Char) (rep : List Char) (l : List Char) : List Char :=
  l.flatMap (fun x => if x = c then rep else [x])

/-- Model of `escapeForCSharpStringLiteral` from src/extension.ts: first double every
backslash, then escape every double quote. -/
def escapeForCSharpStringLiteral (value : List Char) : List Char :=
  replaceAllChar '"' (("\\\"").toList) (replaceAllChar '\\' (("\\\\").toList) value)

/-- Model of `escapeForCSharpInterpolatedStringLiteralText` from src/extension.ts:
double backslashes, escape quotes, then double each brace. -/
def escapeForCSharpInterpolatedStringLiteralText (value : List Char) : List Char :=
  replaceAllChar '\x7d' (("\x7d\x7d").toList)
    (replaceAllChar '\x7b' (("\x7b\x7b").toList)
      (replaceAllChar '"' (("\\\"").toList)
        (replaceAllChar '\\' (("\\\\").toList) value)))

/-- Model of `toCSharpMethodName` from src/extension.ts: blank out quoted regions,
blank out punctuation, then delete all whitespace. -/
def toCSharpMethodName (stepLine : List Char) : List Char :=
  let withoutQuotedText := replaceQuotedWith ([' ']) stepLine
  let withoutPunctuation :=
    withoutQuotedText.map (fun c => if isAlnumB c || isWSB c then c else ' ')
  withoutPunctuation.filter (fun c => !isWSB c)

/-- Model of `generateAtfBindingAttribute` from src/extension.ts. -/
def generateAtfBindingAttribute (keyword remainder : List Char) : List Char :=
  (("[").toList) ++ keyword ++ (("(@\"").toList) ++
    replaceQuotedWith (("\"\"([^\"\"]*)\"\"").toList) remainder ++
    (("\")]").toList)

/-- Decimal digits of a natural number, the effect of JS `String(n)`. -/
def natDigits (n : Nat) : List Char :=
  if n < 10 then [Char.ofNat (48 + n)]
  else natDigits (n / 10) ++ [Char.ofNat (48 + n % 10)]
termination_by n
decreasing_by exact Nat.div_lt_self (by omega) (by omega)

/-- The parameter name generated for 0-based index `i` inside the loop of
`getParameterNames`: letter `a`+`i % 26` and, when `i / 26 > 0`, its decimal
digits as suffix. -/
def parameterNameAt (i : Nat) : List Char :=
  Char.ofNat (97 + i % 26) :: (if i / 26 > 0 then natDigits (i / 26) else [])

/-- Model of `getParameterNames` from src/extension.ts. -/
def getParameterNames (count : Nat) : List (List Char) :=
  (List.range count).map parameterNameAt

/-- The interpolated-string template built by the loop of
`buildProcAssignment`: literal text escaped for an interpolated context, each
quoted region replaced by an escaped quote, the interpolation hole with the
positional parameter name and an escaped quote
(falling back to `a<index+1>` when the list is too short). -/
def buildTemplate (parameterNames : List (List Char)) (idx : Nat)
    (l : List Char) : List Char :=
  match h : splitFirstQuoted l with
  | none => escapeForCSharpInterpolatedStringLiteralText l
  | some (b, _, a) =>
      escapeForCSharpInterpolatedStringLiteralText b ++
      (("\\\"\x7b").toList) ++
      parameterNames.getD idx ((("a").toList) ++ natDigits (idx + 1)) ++
      (("\x7d\\\"").toList) ++
      buildTemplate parameterNames (idx + 1) a
termination_by l.length
decreasing_by exact splitFirstQuoted_length h

/-- Model of `buildProcAssignment` from src/extension.ts. -/
def buildProcAssignment (stepLine : List Char)
    (parameterNames : List (List Char)) : List Char :=
  if parameterNames = [] then
    (("string proc = \"").toList) ++ escapeForCSharpStringLiteral stepLine ++
      (("\";").toList)
  else
    (("string proc = $\"").toList) ++ buildTemplate parameterNames 0 stepLine ++
      (("\";").toList)

/-- The method signature assembled inside `generateCSharpMethod`. -/
def methodSignature (methodName : List Char)
    (parameterNames : List (List Char)) : List Char :=
  if parameterNames = [] then
    (("public bool ").toList) ++ methodName ++ (("()").toList)
  else
    (("public bool ").toList) ++ methodName ++ (("(").toList) ++
      List.intercalate ((", ").toList)
        (parameterNames.map (fun n => (("string ").toList) ++ n)) ++
      ((")").toList)

/-- The fixed validation-call block that ends every generated method. -/
def fixedTail : List Char :=
  ("     \r\n         if (CombinedSteps.OutputProc(proc))\r\n         \x7b\r\n             return false;\r\n  // make me true!             //return true;\r\n    \x7d\r\n    CombinedSteps.Failure(proc);\r\n    return false;\r\n\x7d").toList

/-- Model of `generateCSharpMethod` from src/extension.ts. -/
def generateCSharpMethod (stepLine : List Char) : List Char :=
  let methodName := toCSharpMethodName stepLine
  let quotedValues := getQuotedStringLiterals stepLine
  let parameterNames := getParameterNames quotedValues.length
  let signature := methodSignature methodName parameterNames
  let attrPart :=
    match parseStepKeyword stepLine with
    | .ok (k, r) => generateAtfBindingAttribute k r ++ (("\r\n").toList)
    | .error _ => []
  (("     ").toList) ++ attrPart ++ (("     ").toList) ++ signature ++
    (("\r\n     \x7b\r\n         ").toList) ++
    buildProcAssignment stepLine parameterNames ++ (("\r\n").toList) ++ fixedTail

/-! ## Spec-side definitions (refinement targets, worded from spec.md) -/

/-- Spec-side (§4.1): `t` begins, case-insensitively, with the word `w` at a
word boundary — `w` is a prefix of the case-folded line and the first
character after it, if any, is not a word character. -/
def beginsWithWordCI (w t : List Char) : Bool :=
  decide (w <+: t.map toLowerAscii) &&
    (match t.drop w.length with
     | [] => true
     | c :: _ => !isWordCharB c)

/-- Spec-side restatement of the Validator contract (§4.1): trim, then
EmptyLine / WrongConjunction / MissingKeyword / success with the trimmed line,
in that order, with the three fixed error strings. -/
def validateSpec (raw : List Char) : Except (List Char) (List Char) :=
  let t := trimJS raw
  if t.isEmpty then .error emptyLineMsg
  else if beginsWithWordCI (("and").toList) t || beginsWithWordCI (("or").toList) t then
    .error wrongConjunctionMsg
  else if beginsWithWordCI (("given").toList) t || beginsWithWordCI (("when").toList) t ||
      beginsWithWordCI (("then").toList) t then
    .ok t
  else .error missingKeywordMsg

/-- One quoted segment appears between each pair of neighbouring plain
segments; `t` is the trailing text after the last complete pair. -/
def assembleQuoted : List (List Char × List Char) → List Char → List Char
  | [], t => t
  | (s, q) :: ps, t => s ++ '"' :: (q ++ '"' :: assembleQuoted ps t)

/-- The alphabet the parameter-name sequence cycles through. -/
def alphabetChars : List Char := ("abcdefghijklmnopqrstuvwxyz").toList

/-- Spec-side (§3): the parameter name at 0-based index `i` is the letter at
position `i mod 26` of the alphabet, followed by the decimal suffix
`floor(i/26)` when that is positive and by nothing when it is zero. -/
def specParamName (i : Nat) : List Char :=
  alphabetChars.getD (i % 26) 'a' :: (if i / 26 = 0 then [] else natDigits (i / 26))

/-- Decimal value of a digit string, used to invert `natDigits`. -/
def digitsVal (l : List Char) : Nat :=
  l.foldl (fun a c => 10 * a + (c.toNat - 48)) 0

/-- Spec-side (§4.6): single-pass plain string-literal escaping — backslash
and double quote escaped, braces untouched. -/
def plainEscChar (c : Char) : List Char :=
  if c = '\\' then ("\\\\").toList
  else if c = '"' then ("\\\"").toList
  else [c]

/-- Spec-side (§4.6): single-pass interpolated-context escaping — backslash
and double quote escaped, each brace doubled. -/
def interpEscChar (c : Char) : List Char :=
  if c = '\\' then ("\\\\").toList
  else if c = '"' then ("\\\"").toList
  else if c = '\x7b' then ("\x7b\x7b").toList
  else if c = '\x7d' then ("\x7d\x7d").toList
  else [c]

/-! ## Claims -/

set_option maxRecDepth 40000

unseal natDigits getQuotedStringLiterals replaceQuotedWith buildTemplate

theorem beginsWithWordCI_eq (w t : List Char) :
    beginsWithWordCI w t = matchesKw w t := by
  unfold beginsWithWordCI matchesKw
  congr 1
  rw [decide_eq_decide]
  constructor
  · rintro ⟨r, hr⟩
    rw [List.map_take, ← hr]
    exact List.take_left w r
  · intro h
    refine ⟨(t.drop w.length).map toLowerAscii, ?_⟩
    conv_rhs => rw [← List.take_append_drop w.length t]
    rw [List.map_append, h]


/-- Claim C1: `validateStepLine` first trims its input and then returns
exactly one of four outcomes — the EmptyLine error on an empty trim, the
WrongConjunction error when the trimmed line begins with "and" or "or" at a
word boundary (case-insensitive), the MissingKeyword error when it does not
begin with "given"/"when"/"then" at a word boundary and is not the
conjunction case, and otherwise success carrying the trimmed line unchanged;
the errors are the three fixed literal strings.  Stated as a refinement of
the spec-side `validateSpec`. -/
theorem claim1_validator_refines_spec (raw : List Char) :
    validateStepLine raw = validateSpec raw := by
  unfold validateStepLine validateSpec
  simp only [startsWithConjunctionWord, startsWithStepKeyword, beginsWithWordCI_eq,
    List.isEmpty_iff]
  by_cases h1 : trimJS raw = []
  · simp [h1]
  · cases hand : matchesKw (['a', 'n', 'd']) (trimJS raw) <;>
      cases hor : matchesKw (['o', 'r']) (trimJS raw) <;>
        cases hg : matchesKw (['g', 'i', 'v', 'e', 'n']) (trimJS raw) <;>
          cases hw : matchesKw (['w', 'h', 'e', 'n']) (trimJS raw) <;>
            cases ht : matchesKw (['t', 'h', 'e', 'n']) (trimJS raw) <;>
              simp [h1, hand, hor, hg, hw, ht]

theorem matchesKw_append_of_lt (w p r : List Char) (h : w.length < p.length) :
    matchesKw w (p ++ r) = matchesKw w p := by
  unfold matchesKw
  rw [List.take_append_of_le_length (Nat.le_of_lt h),
    List.drop_append_of_le_length (Nat.le_of_lt h)]
  have hne : p.drop w.length ≠ [] := by
    simp only [ne_eq, List.drop_eq_nil_iff]
    omega
  cases hd : p.drop w.length with
  | nil => exact absurd hd hne
  | cons c tail => rfl

/-- Claim C2 counterexample: the claim says a keyword followed by any
non-whitespace character, such as in "Given,x", is not accepted; but the
regex word boundary also holds before a comma, so `validateStepLine` accepts
"Given,x". -/
theorem claim2_counterexample :
    validateStepLine (("Given,x").toList) = .ok (("Given,x").toList) := by
  rfl

/-- Claim C2 (amended): a leading keyword or conjunction counts as a match
only when followed by a non-word character or end-of-string: a line whose
trim begins with "andrew" is never rejected as WrongConjunction — it fails as
MissingKeyword — a line whose trim begins with "thenable" is likewise not
accepted as starting with "then", while a keyword followed by a non-word,
non-whitespace character, such as in "Given,x", is accepted. -/
theorem claim2_word_boundary (raw : List Char) :
    ((("andrew").toList <+: trimJS raw) →
      validateStepLine raw = .error missingKeywordMsg) ∧
    ((("thenable").toList <+: trimJS raw) →
      validateStepLine raw = .error missingKeywordMsg) ∧
    validateStepLine (("Given,x").toList) = .ok (("Given,x").toList) := by
  refine ⟨?_, ?_, rfl⟩
  · rintro ⟨r, hr⟩
    have e0 : trimJS raw ≠ [] := by
      rw [← hr]
      intro hh
      rw [List.append_eq_nil] at hh
      exact absurd hh.1 (by decide)
    have e1 : startsWithConjunctionWord (trimJS raw) = false := by
      rw [← hr]
      unfold startsWithConjunctionWord
      rw [matchesKw_append_of_lt _ _ _ (by decide),
        matchesKw_append_of_lt _ _ _ (by decide)]
      decide
    have e2 : startsWithStepKeyword (trimJS raw) = false := by
      rw [← hr]
      unfold startsWithStepKeyword
      rw [matchesKw_append_of_lt _ _ _ (by decide),
        matchesKw_append_of_lt _ _ _ (by decide),
        matchesKw_append_of_lt _ _ _ (by decide)]
      decide
    simp [validateStepLine, e0, e1, e2]
  · rintro ⟨r, hr⟩
    have e0 : trimJS raw ≠ [] := by
      rw [← hr]
      intro hh
      rw [List.append_eq_nil] at hh
      exact absurd hh.1 (by decide)
    have e1 : startsWithConjunctionWord (trimJS raw) = false := by
      rw [← hr]
      unfold startsWithConjunctionWord
      rw [matchesKw_append_of_lt _ _ _ (by decide),
        matchesKw_append_of_lt _ _ _ (by decide)]
      decide
    have e2 : startsWithStepKeyword (trimJS raw) = false := by
      rw [← hr]
      unfold startsWithStepKeyword
      rw [matchesKw_append_of_lt _ _ _ (by decide),
        matchesKw_append_of_lt _ _ _ (by decide),
        matchesKw_append_of_lt _ _ _ (by decide)]
      decide
    simp [validateStepLine, e0, e1, e2]

/-- Claim C2 witness: the amended theorem applied to concrete lines beginning
with "andrew" and "thenable". -/
theorem claim2_word_boundary_witness :
    validateStepLine (("andrew opened the door").toList) = .error missingKeywordMsg ∧
    validateStepLine (("thenable x").toList) = .error missingKeywordMsg :=
  ⟨(claim2_word_boundary (("andrew opened the door").toList)).1 (by decide),
   (claim2_word_boundary (("thenable x").toList)).2.1 (by decide)⟩

/-- Claim C3 counterexample: the claim states the attribute pattern body for
the line `When Message "Hello" is displayed` is `Message ""([^""]*)""is
displayed`; the code keeps the space that followed the closing quote, so the
actual pattern has a space before "is". -/
theorem claim3_counterexample :
    generateAtfBindingAttribute (("When").toList)
        (("Message \"Hello\" is displayed").toList) ≠
      ("[When(@\"Message \"\"([^\"\"]*)\"\"is displayed\")]").toList := by
  decide

/-- Claim C3 (amended): for the line `When Message "Hello" is displayed`, the
quoted literals are exactly ["Hello"], the parameter names are exactly ["a"],
the keyword parser yields keyword `When` and remainder
`Message "Hello" is displayed`, the binding attribute is
`[When(@"Message ""([^""]*)"" is displayed")]` (each quoted region replaced
by a capture group with doubled-quote escaping, surrounding text preserved,
including the space after the closing quote), and the assignment is
an interpolated assignment whose hole holds the parameter a. -/
theorem claim3_hello_example :
    getQuotedStringLiterals (("When Message \"Hello\" is displayed").toList) =
      [("Hello").toList] ∧
    getParameterNames
        (getQuotedStringLiterals
          (("When Message \"Hello\" is displayed").toList)).length =
      [("a").toList] ∧
    parseStepKeyword (("When Message \"Hello\" is displayed").toList) =
      .ok ((("When").toList), ("Message \"Hello\" is displayed").toList) ∧
    generateAtfBindingAttribute (("When").toList)
        (("Message \"Hello\" is displayed").toList) =
      ("[When(@\"Message \"\"([^\"\"]*)\"\" is displayed\")]").toList ∧
    buildProcAssignment (("When Message \"Hello\" is displayed").toList)
        [("a").toList] =
      ("string proc = $\"When Message \\\"\x7ba\x7d\\\" is displayed\";").toList := by
  refine ⟨by decide, by decide, by rfl, by decide, by decide⟩

theorem findQuote_append {q : List Char} (r : List Char) (hq : '"' ∉ q) :
    findQuote (q ++ '"' :: r) = some (q, r) := by
  induction q with
  | nil => simp [findQuote]
  | cons c cs ih =>
      have hc : c ≠ '"' := by intro h; exact hq (by simp [h])
      have hcs : '"' ∉ cs := by intro h; exact hq (by simp [h])
      simp [findQuote, hc, ih hcs]

theorem splitFirstQuoted_append {s : List Char} (r : List Char) (hs : '"' ∉ s) :
    splitFirstQuoted (s ++ r) =
      (splitFirstQuoted r).map (fun p => (s ++ p.1, p.2.1, p.2.2)) := by
  induction s with
  | nil =>
      simp only [List.nil_append]
      cases splitFirstQuoted r with
      | none => simp
      | some p => simp
  | cons c cs ih =>
      have hc : c ≠ '"' := by intro h; exact hs (by simp [h])
      have hcs : '"' ∉ cs := by intro h; exact hs (by simp [h])
      simp only [List.cons_append, splitFirstQuoted, if_neg hc, List.append_eq]
      rw [ih hcs]
      cases splitFirstQuoted r with
      | none => rfl
      | some p => simp

theorem splitFirstQuoted_cons_quote {q : List Char} (r : List Char)
    (hq : '"' ∉ q) : splitFirstQuoted ('"' :: (q ++ '"' :: r)) = some ([], q, r) := by
  simp [splitFirstQuoted, findQuote_append r hq]

theorem splitFirstQuoted_eq_none {t : List Char} (ht : t.count '"' ≤ 1) :
    splitFirstQuoted t = none := by
  cases h : splitFirstQuoted t with
  | none => rfl
  | some p =>
      obtain ⟨b, q, a⟩ := p
      have he := (splitFirstQuoted_some h).1
      rw [he] at ht
      simp [List.count_append, List.count_cons] at ht
      exact absurd ht (by omega)

/-- Claim C5: `getQuotedStringLiterals` pairs double quotes greedily left to
right into non-overlapping, non-nested regions and returns the inner contents
in order; with no quote pair the result is the empty list, and a trailing
unmatched quote (odd quote count) is silently ignored.  Stated over every
string assembled from quote-free plain segments, quote-free quoted contents
and a tail holding at most one (unmatched) quote. -/
theorem claim5_quote_extraction (ps : List (List Char × List Char))
    (t : List Char) (hps : ∀ p ∈ ps, '"' ∉ p.1 ∧ '"' ∉ p.2)
    (ht : t.count '"' ≤ 1) :
    getQuotedStringLiterals (assembleQuoted ps t) = ps.map Prod.snd := by
  induction ps with
  | nil =>
      rw [assembleQuoted, getQuotedStringLiterals, splitFirstQuoted_eq_none ht]
      rfl
  | cons p ps ih =>
      obtain ⟨s, q⟩ := p
      have hs : '"' ∉ s := (hps (s, q) (by simp)).1
      have hq : '"' ∉ q := (hps (s, q) (by simp)).2
      rw [assembleQuoted, getQuotedStringLiterals,
        splitFirstQuoted_append ('"' :: (q ++ '"' :: assembleQuoted ps t)) hs,
        show ('"' : Char) :: (q ++ '"' :: assembleQuoted ps t) =
          '"' :: (q ++ '"' :: assembleQuoted ps t) from rfl,
        splitFirstQuoted_cons_quote (assembleQuoted ps t) hq]
      simp only [Option.map_some', List.map_cons]
      rw [ih (fun p hp => hps p (by simp [hp]))]

/-- Claim C5 witness: the theorem applied to one complete pair followed by a
tail that contains a single unmatched quote. -/
theorem claim5_quote_extraction_witness :
    getQuotedStringLiterals
        (assembleQuoted [((("Given ").toList), (("x").toList))]
          ((" tail\"ignored").toList)) = [("x").toList] :=
  claim5_quote_extraction [((("Given ").toList), (("x").toList))]
    ((" tail\"ignored").toList) (by decide) (by decide)

theorem parameterNameAt_eq_spec (i : Nat) : parameterNameAt i = specParamName i := by
  unfold parameterNameAt specParamName
  have h : i % 26 < 26 := Nat.mod_lt _ (by omega)
  have hchar : ∀ k, k < 26 → Char.ofNat (97 + k) = alphabetChars.getD k 'a' := by decide
  rw [hchar _ h]
  by_cases h0 : i / 26 = 0
  · simp [h0]
  · simp [h0, Nat.pos_of_ne_zero h0]

/-- Claim C6: parameter names are bound positionally in left-to-right order
and follow the sequence a, b, …, z, a1, b1, …, z1, a2, …: the name at 0-based
index `i` is the letter at position `i mod 26` followed by the decimal suffix
`i / 26` when positive and nothing when zero; two quoted segments give
exactly ["a","b"] and the name at index 26 is "a1". -/
theorem claim6_parameter_names :
    (∀ n, getParameterNames n = (List.range n).map specParamName) ∧
    getParameterNames
        (getQuotedStringLiterals (("Given \"x\" and \"y\" match").toList)).length =
      [("a").toList, ("b").toList] ∧
    (getParameterNames 27).getD 26 [] = ("a1").toList := by
  refine ⟨?_, by decide, by decide⟩
  intro n
  unfold getParameterNames
  rw [show parameterNameAt = specParamName from funext parameterNameAt_eq_spec]

theorem digitsVal_natDigits (n : Nat) : digitsVal (natDigits n) = n := by
  induction n using Nat.strong_induction_on with
  | _ n ih =>
      by_cases h : n < 10
      · have hv : ∀ d, d < 10 → (Char.ofNat (48 + d)).toNat = 48 + d := by decide
        rw [natDigits, if_pos h]
        simp [digitsVal, hv n h]
      · have hv : (Char.ofNat (48 + n % 10)).toNat = 48 + n % 10 := by
          have : ∀ d, d < 10 → (Char.ofNat (48 + d)).toNat = 48 + d := by decide
          exact this _ (Nat.mod_lt _ (by omega))
        rw [natDigits, if_neg h]
        have hlt : n / 10 < n := Nat.div_lt_self (by omega) (by omega)
        simp only [digitsVal, List.foldl_append, List.foldl_cons, List.foldl_nil]
        have := ih (n / 10) hlt
        simp only [digitsVal] at this
        rw [this, hv]
        omega

theorem natDigits_ne_nil (n : Nat) : natDigits n ≠ [] := by
  rw [natDigits]
  by_cases h : n < 10 <;> simp [h]

theorem natDigits_inj {a b : Nat} (h : natDigits a = natDigits b) : a = b := by
  have ha := digitsVal_natDigits a
  rw [h, digitsVal_natDigits] at ha
  omega

theorem parameterNameAt_inj : Function.Injective parameterNameAt := by
  intro i j h
  unfold parameterNameAt at h
  injection h with h1 h2
  have hi : i % 26 < 26 := Nat.mod_lt _ (by omega)
  have hj : j % 26 < 26 := Nat.mod_lt _ (by omega)
  have hmod : i % 26 = j % 26 := by
    have hchar : ∀ a, a < 26 → ∀ b, b < 26 →
        Char.ofNat (97 + a) = Char.ofNat (97 + b) → a = b := by decide
    exact hchar _ hi _ hj h1
  have hdiv : i / 26 = j / 26 := by
    by_cases h0 : i / 26 > 0 <;> by_cases h0' : j / 26 > 0
    · rw [if_pos h0, if_pos h0'] at h2
      exact natDigits_inj h2
    · rw [if_pos h0, if_neg h0'] at h2
      exact absurd h2 (natDigits_ne_nil _)
    · rw [if_neg h0, if_pos h0'] at h2
      exact absurd h2.symm (natDigits_ne_nil _)
    · omega
  omega

/-- Claim C10: for every count the generated parameter names are pairwise
distinct, so the signature assembled by `generateCSharpMethod` never declares
two parameters with the same identifier, whatever the number of quoted
literals in the input line. -/
theorem claim10_names_distinct :
    (∀ n, (getParameterNames n).Nodup) ∧
    (∀ stepLine, (getParameterNames
        (getQuotedStringLiterals stepLine).length).Nodup) := by
  have h : ∀ n, (getParameterNames n).Nodup := by
    intro n
    unfold getParameterNames
    exact (List.nodup_range n).map parameterNameAt_inj
  exact ⟨h, fun s => h _⟩

/-- Claim C8: `toCSharpMethodName` always returns only ASCII letters and
digits (quoted regions become a space, other non-alphanumeric non-whitespace
characters become spaces, then all whitespace is removed); an empty result is
accepted, not an error; and a validated line with zero quoted segments yields
a parameterless method signature. -/
theorem claim8_method_name :
    (∀ stepLine, ∀ c ∈ toCSharpMethodName stepLine, isAlnumB c = true) ∧
    (∀ stepLine, getQuotedStringLiterals stepLine = [] →
      methodSignature (toCSharpMethodName stepLine)
          (getParameterNames (getQuotedStringLiterals stepLine).length) =
        (("public bool ").toList) ++ toCSharpMethodName stepLine ++ (("()").toList)) ∧
    toCSharpMethodName (("???").toList) = [] ∧
    generateCSharpMethod (("???").toList) ≠ [] := by
  refine ⟨?_, ?_, by decide, by decide⟩
  · intro stepLine c hc
    unfold toCSharpMethodName at hc
    simp only [List.mem_filter, List.mem_map] at hc
    obtain ⟨⟨x, hx, hxc⟩, hws⟩ := hc
    by_cases ha : isAlnumB x = true
    · rw [← hxc]
      simp [ha]
    · by_cases hw : isWSB x = true
      · rw [← hxc] at hws
        simp [ha, hw] at hws
      · rw [← hxc] at hws
        simp [ha, hw] at hws
        exact absurd hws (by decide)
  · intro stepLine h0
    rw [h0]
    simp [getParameterNames, methodSignature]

/-- Claim C8 witness: the theorem applied to the line "Given nothing", whose
derived name is nonempty, and to the membership of its first character. -/
theorem claim8_method_name_witness :
    isAlnumB 'G' = true ∧
    methodSignature (toCSharpMethodName (("Given nothing").toList))
        (getParameterNames
          (getQuotedStringLiterals (("Given nothing").toList)).length) =
      (("public bool ").toList) ++ toCSharpMethodName (("Given nothing").toList) ++
        (("()").toList) :=
  ⟨claim8_method_name.1 (("Given nothing").toList) 'G' (by decide),
   claim8_method_name.2.1 (("Given nothing").toList) (by decide)⟩

/-! ## Escaping (claim C4) -/

theorem replaceAllChar_cons (c : Char) (rep : List Char) (x : Char)
    (l : List Char) :
    replaceAllChar c rep (x :: l) =
      (if x = c then rep else [x]) ++ replaceAllChar c rep l := by
  simp [replaceAllChar]

theorem replaceAllChar_append (c : Char) (rep : List Char) (l1 l2 : List Char) :
    replaceAllChar c rep (l1 ++ l2) =
      replaceAllChar c rep l1 ++ replaceAllChar c rep l2 := by
  induction l1 with
  | nil => rfl
  | cons x xs ih => simp [replaceAllChar_cons, ih, List.append_assoc]

theorem escPlain_eq_flatMap (v : List Char) :
    escapeForCSharpStringLiteral v = v.flatMap plainEscChar := by
  induction v with
  | nil => rfl
  | cons c v ih =>
      unfold escapeForCSharpStringLiteral at ih ⊢
      rw [replaceAllChar_cons, replaceAllChar_append, List.flatMap_cons, ih]
      congr 1
      by_cases h1 : c = '\\'
      · subst h1; rfl
      · by_cases h2 : c = '"'
        · subst h2; rfl
        · simp [plainEscChar, replaceAllChar, h1, h2]

theorem escInterp_eq_flatMap (v : List Char) :
    escapeForCSharpInterpolatedStringLiteralText v = v.flatMap interpEscChar := by
  induction v with
  | nil => rfl
  | cons c v ih =>
      unfold escapeForCSharpInterpolatedStringLiteralText at ih ⊢
      rw [replaceAllChar_cons, replaceAllChar_append, replaceAllChar_append,
        replaceAllChar_append, List.flatMap_cons, ih]
      congr 1
      by_cases h1 : c = '\\'
      · subst h1; rfl
      · by_cases h2 : c = '"'
        · subst h2; rfl
        · by_cases h3 : c = '\x7b'
          · subst h3; rfl
          · by_cases h4 : c = '\x7d'
            · subst h4; rfl
            · simp [interpEscChar, replaceAllChar, h1, h2, h3, h4]

/-- Claim C4: `buildProcAssignment` escapes in every case and distinguishes
the two contexts.  With an empty parameter list it emits a plain
(non-interpolated) assignment of the whole line escaped character by
character by `plainEscChar` (backslash and quote escaped, braces never
doubled); with a non-empty list it emits an interpolated assignment whose
template escapes every literal segment by `interpEscChar` (backslash and
quote escaped, every brace doubled) and replaces each quoted region by an
escaped quote, an interpolation hole with the positional parameter name, and
an escaped quote. -/
theorem claim4_escaping (line : List Char) (names : List (List Char))
    (idx : Nat) :
    buildProcAssignment line [] =
      (("string proc = \"").toList) ++ line.flatMap plainEscChar ++
        (("\";").toList) ∧
    (names ≠ [] → buildProcAssignment line names =
      (("string proc = $\"").toList) ++ buildTemplate names 0 line ++
        (("\";").toList)) ∧
    (splitFirstQuoted line = none →
      buildTemplate names idx line = line.flatMap interpEscChar) ∧
    (∀ b q a, splitFirstQuoted line = some (b, q, a) →
      buildTemplate names idx line =
        b.flatMap interpEscChar ++ (("\\\"\x7b").toList) ++
        names.getD idx ((("a").toList) ++ natDigits (idx + 1)) ++
        (("\x7d\\\"").toList) ++ buildTemplate names (idx + 1) a) := by
  refine ⟨?_, ?_, ?_, ?_⟩
  · rw [buildProcAssignment, if_pos rfl, escPlain_eq_flatMap]
  · intro hne
    rw [buildProcAssignment, if_neg hne]
  · intro h
    rw [buildTemplate, h]
    exact escInterp_eq_flatMap line
  · intro b q a h
    rw [buildTemplate, h]
    show escapeForCSharpInterpolatedStringLiteralText b ++ (("\\\"\x7b").toList) ++
        names.getD idx ((("a").toList) ++ natDigits (idx + 1)) ++
        (("\x7d\\\"").toList) ++ buildTemplate names (idx + 1) a = _
    rw [escInterp_eq_flatMap]

/-- Claim C4 witness: the theorem applied to a line holding a backslash, a
quote pair and braces, in both the parameterless and the one-parameter
context. -/
theorem claim4_escaping_witness :
    buildProcAssignment (("a\\b \"q\" \x7bc\x7d").toList) [] =
      (("string proc = \"").toList) ++
        ((("a\\b \"q\" \x7bc\x7d").toList).flatMap plainEscChar) ++
        (("\";").toList) ∧
    buildProcAssignment (("a\\b \"q\" \x7bc\x7d").toList) [("a").toList] =
      (("string proc = $\"").toList) ++
        buildTemplate [("a").toList] 0 (("a\\b \"q\" \x7bc\x7d").toList) ++
        (("\";").toList) :=
  ⟨(claim4_escaping (("a\\b \"q\" \x7bc\x7d").toList) [] 0).1,
   (claim4_escaping (("a\\b \"q\" \x7bc\x7d").toList) [("a").toList] 0).2.1
     (by decide)⟩

/-- Claim C9: `generateCSharpMethod` is total on every input string: its
output always contains the signature line, the proc assignment and the fixed
validation-call block, and when keyword parsing fails (for example on a
string with no leading keyword, or on a validated line with an embedded
newline after other text) the binding-attribute line is omitted while the
rest of the method is still produced. -/
theorem claim9_generator_total (stepLine : List Char) :
    (methodSignature (toCSharpMethodName stepLine)
        (getParameterNames (getQuotedStringLiterals stepLine).length)) <:+:
      generateCSharpMethod stepLine ∧
    (buildProcAssignment stepLine
        (getParameterNames (getQuotedStringLiterals stepLine).length)) <:+:
      generateCSharpMethod stepLine ∧
    fixedTail <:+: generateCSharpMethod stepLine ∧
    (∀ e, parseStepKeyword stepLine = .error e →
      generateCSharpMethod stepLine =
        (("     ").toList) ++ (("     ").toList) ++
          methodSignature (toCSharpMethodName stepLine)
            (getParameterNames (getQuotedStringLiterals stepLine).length) ++
          (("\r\n     \x7b\r\n         ").toList) ++
          buildProcAssignment stepLine
            (getParameterNames (getQuotedStringLiterals stepLine).length) ++
          (("\r\n").toList) ++ fixedTail) := by
  refine ⟨?_, ?_, ?_, ?_⟩
  · refine ⟨(("     ").toList) ++
      (match parseStepKeyword stepLine with
       | .ok (k, r) => generateAtfBindingAttribute k r ++ (("\r\n").toList)
       | .error _ => []) ++ (("     ").toList),
      (("\r\n     \x7b\r\n         ").toList) ++
        buildProcAssignment stepLine
          (getParameterNames (getQuotedStringLiterals stepLine).length) ++
        (("\r\n").toList) ++ fixedTail, ?_⟩
    simp only [generateCSharpMethod]
    simp [List.append_assoc]
  · refine ⟨(("     ").toList) ++
      (match parseStepKeyword stepLine with
       | .ok (k, r) => generateAtfBindingAttribute k r ++ (("\r\n").toList)
       | .error _ => []) ++ (("     ").toList) ++
      methodSignature (toCSharpMethodName stepLine)
        (getParameterNames (getQuotedStringLiterals stepLine).length) ++
      (("\r\n     \x7b\r\n         ").toList),
      (("\r\n").toList) ++ fixedTail, ?_⟩
    simp only [generateCSharpMethod]
    simp [List.append_assoc]
  · refine ⟨(("     ").toList) ++
      (match parseStepKeyword stepLine with
       | .ok (k, r) => generateAtfBindingAttribute k r ++ (("\r\n").toList)
       | .error _ => []) ++ (("     ").toList) ++
      methodSignature (toCSharpMethodName stepLine)
        (getParameterNames (getQuotedStringLiterals stepLine).length) ++
      (("\r\n     \x7b\r\n         ").toList) ++
      buildProcAssignment stepLine
        (getParameterNames (getQuotedStringLiterals stepLine).length) ++
      (("\r\n").toList), [], ?_⟩
    simp only [generateCSharpMethod]
    simp [List.append_assoc]
  · intro e he
    simp only [generateCSharpMethod, he]
    simp [List.append_assoc]

/-- Claim C9 witness: the theorem's no-attribute conjunct applied to the
keyword-less line "hello". -/
theorem claim9_generator_total_witness :
    generateCSharpMethod (("hello").toList) =
      (("     ").toList) ++ (("     ").toList) ++
        methodSignature (toCSharpMethodName (("hello").toList))
          (getParameterNames
            (getQuotedStringLiterals (("hello").toList)).length) ++
        (("\r\n     \x7b\r\n         ").toList) ++
        buildProcAssignment (("hello").toList)
          (getParameterNames
            (getQuotedStringLiterals (("hello").toList)).length) ++
        (("\r\n").toList) ++ fixedTail :=
  (claim9_generator_total (("hello").toList)).2.2.2 missingKeywordMsg (by rfl)

/-- Claim C7 counterexample: on "given a\nb" the trimmed line does begin with
"given" at a word boundary — the Validator accepts it and does not report
MissingKeyword — yet `parseStepKeyword` fails, because `(.*)$` in its regex
cannot cross the embedded newline.  So the parser does not succeed under
exactly the Validator's keyword condition. -/
theorem claim7_counterexample :
    (parseStepKeyword (("given a" ++ "\n" ++ "b").toList)).isOk = false ∧
    startsWithStepKeyword (trimJS (("given a" ++ "\n" ++ "b").toList)) = true ∧
    validateStepLine (("given a" ++ "\n" ++ "b").toList) =
      .ok (("given a" ++ "\n" ++ "b").toList) := by
  refine ⟨by rfl, by rfl, by rfl⟩

theorem matchesKw_head {c : Char} {w t : List Char}
    (h : matchesKw (c :: w) t = true) :
    ∃ x t', t = x :: t' ∧ toLowerAscii x = c := by
  unfold matchesKw at h
  cases t with
  | nil => simp at h
  | cons x t' =>
      refine ⟨x, t', rfl, ?_⟩
      simp only [Bool.and_eq_true, decide_eq_true_eq] at h
      have h1 := h.1
      simp only [List.length_cons, List.take_succ_cons, List.map_cons] at h1
      exact (List.cons.injEq _ _ _ _ ▸ h1).1

theorem matchesKw_head_ne {c d : Char} {w w' t : List Char} (hcd : c ≠ d)
    (h : matchesKw (c :: w) t = true) : matchesKw (d :: w') t = false := by
  cases hq : matchesKw (d :: w') t with
  | false => rfl
  | true =>
      obtain ⟨x1, t1, he1, hl1⟩ := matchesKw_head h
      obtain ⟨x2, t2, he2, hl2⟩ := matchesKw_head hq
      rw [he1] at he2
      injection he2 with hx _
      exact absurd (by rw [← hl1, hx, hl2]) hcd

/-- Claim C7 (amended): `parseStepKeyword` succeeds exactly when the trimmed
line begins with "given", "when" or "then" at a word boundary
(case-insensitive) AND no line terminator survives after the whitespace run
that follows the keyword (so it is strictly stricter than the Validator's
keyword condition, which ignores the text after the keyword); on success it
returns the keyword normalized to title case together with the remainder —
everything after the keyword and its following whitespace, itself trimmed —
and on failure the error is MissingKeyword. -/
theorem claim7_keyword_parse (stepLine : List Char) :
    ((parseStepKeyword stepLine).isOk = true ↔
      (matchesKw (("given").toList) (trimJS stepLine) = true ∧
        (((trimJS stepLine).drop 5).dropWhile isWSB).any isLineTermB = false) ∨
      (matchesKw (("when").toList) (trimJS stepLine) = true ∧
        (((trimJS stepLine).drop 4).dropWhile isWSB).any isLineTermB = false) ∨
      (matchesKw (("then").toList) (trimJS stepLine) = true ∧
        (((trimJS stepLine).drop 4).dropWhile isWSB).any isLineTermB = false)) ∧
    ((parseStepKeyword stepLine).isOk = true →
      startsWithStepKeyword (trimJS stepLine) = true) ∧
    (∀ e, parseStepKeyword stepLine = .error e → e = missingKeywordMsg) ∧
    (∀ k r, parseStepKeyword stepLine = .ok (k, r) →
      (matchesKw (("given").toList) (trimJS stepLine) = true ∧
        k = ("Given").toList ∧
        r = trimJS (((trimJS stepLine).drop 5).dropWhile isWSB)) ∨
      (matchesKw (("when").toList) (trimJS stepLine) = true ∧
        k = ("When").toList ∧
        r = trimJS (((trimJS stepLine).drop 4).dropWhile isWSB)) ∨
      (matchesKw (("then").toList) (trimJS stepLine) = true ∧
        k = ("Then").toList ∧
        r = trimJS (((trimJS stepLine).drop 4).dropWhile isWSB))) := by
  by_cases hg : matchesKw (("given").toList) (trimJS stepLine) = true
  · have hw : matchesKw (("when").toList) (trimJS stepLine) = false :=
      matchesKw_head_ne (by decide) hg
    have hth : matchesKw (("then").toList) (trimJS stepLine) = false :=
      matchesKw_head_ne (by decide) hg
    have hks : keywordSplit (trimJS stepLine) =
        some ((("Given").toList), (trimJS stepLine).drop 5) := by
      rw [keywordSplit, if_pos hg]
    by_cases hlt : (((trimJS stepLine).drop 5).dropWhile isWSB).any isLineTermB = true
    · have hp : parseStepKeyword stepLine = .error missingKeywordMsg := by
        unfold parseStepKeyword
        simp only [hks]
        simp [hlt]
      refine ⟨?_, ?_, ?_, ?_⟩
      · rw [hp]
        constructor
        · intro h; simp [Except.toBool] at h
        · rintro (⟨_, ha⟩ | ⟨hm, _⟩ | ⟨hm, _⟩)
          · rw [hlt] at ha; cases ha
          · rw [hw] at hm; cases hm
          · rw [hth] at hm; cases hm
      · intro h; rw [hp] at h; simp [Except.toBool] at h
      · intro e he; rw [hp] at he
        injection he with h1
        exact h1.symm
      · intro k r h; rw [hp] at h; simp at h
    · have hp : parseStepKeyword stepLine =
          .ok ((("Given").toList),
            trimJS (((trimJS stepLine).drop 5).dropWhile isWSB)) := by
        unfold parseStepKeyword
        simp only [hks]
        simp [hlt]
      refine ⟨?_, ?_, ?_, ?_⟩
      · rw [hp]
        constructor
        · intro _
          exact Or.inl ⟨hg, by simpa using hlt⟩
        · intro _; rfl
      · intro _
        unfold startsWithStepKeyword
        rw [hg]
        simp
      · intro e he; rw [hp] at he; simp at he
      · intro k r h
        rw [hp] at h
        cases h
        exact Or.inl ⟨hg, rfl, rfl⟩
  · by_cases hw : matchesKw (("when").toList) (trimJS stepLine) = true
    · have hth : matchesKw (("then").toList) (trimJS stepLine) = false :=
        matchesKw_head_ne (by decide) hw
      have hks : keywordSplit (trimJS stepLine) =
          some ((("When").toList), (trimJS stepLine).drop 4) := by
        rw [keywordSplit, if_neg hg, if_pos hw]
      by_cases hlt : (((trimJS stepLine).drop 4).dropWhile isWSB).any isLineTermB = true
      · have hp : parseStepKeyword stepLine = .error missingKeywordMsg := by
          unfold parseStepKeyword
          simp only [hks]
          simp [hlt]
        refine ⟨?_, ?_, ?_, ?_⟩
        · rw [hp]
          constructor
          · intro h; simp [Except.toBool] at h
          · rintro (⟨hm, _⟩ | ⟨_, ha⟩ | ⟨hm, _⟩)
            · exact absurd hm hg
            · rw [hlt] at ha; cases ha
            · rw [hth] at hm; cases hm
        · intro h; rw [hp] at h; simp [Except.toBool] at h
        · intro e he; rw [hp] at he
          injection he with h1
          exact h1.symm
        · intro k r h; rw [hp] at h; simp at h
      · have hp : parseStepKeyword stepLine =
            .ok ((("When").toList),
              trimJS (((trimJS stepLine).drop 4).dropWhile isWSB)) := by
          unfold parseStepKeyword
          simp only [hks]
          simp [hlt]
        refine ⟨?_, ?_, ?_, ?_⟩
        · rw [hp]
          constructor
          · intro _
            exact Or.inr (Or.inl ⟨hw, by simpa using hlt⟩)
          · intro _; rfl
        · intro _
          unfold startsWithStepKeyword
          rw [hw]
          simp
        · intro e he; rw [hp] at he; simp at he
        · intro k r h
          rw [hp] at h
          cases h
          exact Or.inr (Or.inl ⟨hw, rfl, rfl⟩)
    · by_cases hth : matchesKw (("then").toList) (trimJS stepLine) = true
      · have hks : keywordSplit (trimJS stepLine) =
            some ((("Then").toList), (trimJS stepLine).drop 4) := by
          rw [keywordSplit, if_neg hg, if_neg hw, if_pos hth]
        by_cases hlt : (((trimJS stepLine).drop 4).dropWhile isWSB).any isLineTermB = true
        · have hp : parseStepKeyword stepLine = .error missingKeywordMsg := by
            unfold parseStepKeyword
            simp only [hks]
            simp [hlt]
          refine ⟨?_, ?_, ?_, ?_⟩
          · rw [hp]
            constructor
            · intro h; simp [Except.toBool] at h
            · rintro (⟨hm, _⟩ | ⟨hm, _⟩ | ⟨_, ha⟩)
              · exact absurd hm hg
              · exact absurd hm hw
              · rw [hlt] at ha; cases ha
          · intro h; rw [hp] at h; simp [Except.toBool] at h
          · intro e he; rw [hp] at he
            injection he with h1
            exact h1.symm
          · intro k r h; rw [hp] at h; simp at h
        · have hp : parseStepKeyword stepLine =
              .ok ((("Then").toList),
                trimJS (((trimJS stepLine).drop 4).dropWhile isWSB)) := by
            unfold parseStepKeyword
            simp only [hks]
            simp [hlt]
          refine ⟨?_, ?_, ?_, ?_⟩
          · rw [hp]
            constructor
            · intro _
              exact Or.inr (Or.inr ⟨hth, by simpa using hlt⟩)
            · intro _; rfl
          · intro _
            unfold startsWithStepKeyword
            rw [hth]
            simp
          · intro e he; rw [hp] at he; simp at he
          · intro k r h
            rw [hp] at h
            cases h
            exact Or.inr (Or.inr ⟨hth, rfl, rfl⟩)
      · have hks : keywordSplit (trimJS stepLine) = none := by
          rw [keywordSplit, if_neg hg, if_neg hw, if_neg hth]
        have hp : parseStepKeyword stepLine = .error missingKeywordMsg := by
          unfold parseStepKeyword
          simp only [hks]
        refine ⟨?_, ?_, ?_, ?_⟩
        · rw [hp]
          constructor
          · intro h; simp [Except.toBool] at h
          · rintro (⟨hm, _⟩ | ⟨hm, _⟩ | ⟨hm, _⟩)
            · exact absurd hm hg
            · exact absurd hm hw
            · exact absurd hm hth
        · intro h; rw [hp] at h; simp [Except.toBool] at h
        · intro e he; rw [hp] at he
          injection he with h1
          exact h1.symm
        · intro k r h; rw [hp] at h; simp at h

/-- Claim C7 witness: success on "When hi" through the success condition, and
retrieval of the MissingKeyword message on the failing "thenable". -/
theorem claim7_keyword_parse_witness :
    (parseStepKeyword (("When hi").toList)).isOk = true ∧
    ("Line must start with the word \"Given\", \"When\" or \"Then\".").toList =
      missingKeywordMsg :=
  ⟨((claim7_keyword_parse (("When hi").toList)).1).mpr
      (Or.inr (Or.inl ⟨by decide, by decide⟩)),
   (claim7_keyword_parse (("thenable").toList)).2.2.1
      (("Line must start with the word \"Given\", \"When\" or \"Then\".").toList)
      (by rfl)⟩

end ATFExtension
